import Mathlib

/-!
Shallow embedding of the two numerical primitives of this repository:

* `src/optimization/golden_section.h` — bracketed one-dimensional golden-section
  minimization (`golden_section_search`, two overloads);
* `src/wls.h` — the weighted-least-squares accumulator `WLS<Size>`.

Scalars are modelled by a linear ordered field (instantiated at `ℚ` in concrete
computations), mirroring the C++ `Precision` / `double` template parameters with
exact arithmetic.  The golden-ratio constant `g = (3 - √5)/2`, computed once at
the top of `golden_section_search`, is irrational, so the embedding passes the
computed constant in as a parameter `g`; theorems that depend on its value
assume `0 < g` and `g < 1`, which hold for `(3 - √5)/2 ≈ 0.382`.
-/

namespace TooN

/-- Loop state of `golden_section_search` (src/optimization/golden_section.h):
the four bracketing abscissae `a < x1 < x2 < c`, the cached function values
`fx1 = f(x1)`, `fx2 = f(x2)`, and the iteration counter `itnum` declared at
line 82 (a C++ `int`, modelled as `Int`). -/
structure GSState (α : Type) where
  a : α
  x1 : α
  x2 : α
  c : α
  fx1 : α
  fx2 : α
  itnum : Int
deriving DecidableEq

variable {α : Type} [LinearOrderedField α]

/-- The `while` guard of golden_section.h line 83:
`abs(c-a) > tol * (abs(x2)+abs(x1)) && itnum < maxiterations`. -/
def gssGuard (tol : α) (maxiterations : Int) (s : GSState α) : Bool :=
  decide (tol * (|s.x2| + |s.x1|) < |s.c - s.a|) && decide (s.itnum < maxiterations)

/-- One execution of the loop body of golden_section.h lines 84–109.  Note that
the body never modifies `itnum`. -/
def gssStep (g : α) (f : α → α) (s : GSState α) : GSState α :=
  if s.fx2 < s.fx1 then
    -- a = x1; x1 = x2; x2 = x1 + g*(c - x1); fx1 = fx2; fx2 = func(x2);
    let x1 := s.x2
    let x2 := x1 + g * (s.c - x1)
    { a := s.x1, x1 := x1, x2 := x2, c := s.c, fx1 := s.fx2, fx2 := f x2, itnum := s.itnum }
  else
    -- c = x2; x2 = x1; x1 = x2 - g*(x2 - a); fx2 = fx1; fx1 = func(x1);
    let x2 := s.x1
    let x1 := x2 - g * (x2 - s.a)
    { a := s.a, x1 := x1, x2 := x2, c := s.x2, fx1 := f x1, fx2 := s.fx1, itnum := s.itnum }

/-- The `while` loop of golden_section.h lines 83–109, with explicit fuel:
`some s` is the state in which the loop exits, `none` means the guard still
held after `fuel` executions of the body (the C++ loop would keep running). -/
def gssLoop (g : α) (f : α → α) (tol : α) (maxiterations : Int) :
    Nat → GSState α → Option (GSState α)
  | 0, s => if gssGuard tol maxiterations s then none else some s
  | fuel + 1, s =>
    if gssGuard tol maxiterations s then gssLoop g f tol maxiterations fuel (gssStep g f s)
    else some s

/-- The setup step of golden_section.h lines 62–82 turning the 3-point bracket
`a, b, c` (with `fb` the supplied value at `b`) into the 4-point state,
initialising `itnum = 1`. -/
def gssInit (g : α) (a b c fb : α) (f : α → α) : GSState α :=
  if |c - b| < |b - a| then
    -- x1 = b - g*(b-a); x2 = b; fx1 = func(x1); fx2 = fb;
    { a := a, x1 := b - g * (b - a), x2 := b, c := c,
      fx1 := f (b - g * (b - a)), fx2 := fb, itnum := 1 }
  else
    -- x2 = b + g*(c-b); x1 = b; fx1 = fb; fx2 = func(x2);
    { a := a, x1 := b, x2 := b + g * (c - b), c := c,
      fx1 := fb, fx2 := f (b + g * (c - b)), itnum := 1 }

/-- The return statement of golden_section.h lines 112–115:
`if (fx1 < fx2) return (x1, fx1); else return (x2, fx2);`. -/
def gssReturn (s : GSState α) : α × α :=
  if s.fx1 < s.fx2 then (s.x1, s.fx1) else (s.x2, s.fx2)

/-- The 4-argument overload `golden_section_search(a, b, fb, c, func,
maxiterations, tol)` of golden_section.h lines 51–116, with the golden-ratio
constant `g` passed in (see the module comment) and explicit loop fuel.
`none` means the C++ loop would still be running after `fuel` iterations. -/
def golden_section_search (g : α) (a b c fb : α) (f : α → α) (maxiterations : Int)
    (tol : α) (fuel : Nat) : Option (α × α) :=
  (gssLoop g f tol maxiterations fuel (gssInit g a b c fb f)).map gssReturn

/-- The 3-argument overload of golden_section.h lines 130–133, which forwards
to the 4-argument overload with `fb = func(b)`. -/
def golden_section_search3 (g : α) (a b c : α) (f : α → α) (maxiterations : Int)
    (tol : α) (fuel : Nat) : Option (α × α) :=
  golden_section_search g a b c (f b) f maxiterations tol fuel

/-!
Embedding of the fixed-size weighted-least-squares accumulator `WLS<Size>`
(src/wls.h).  Scalars are `ℚ` (exact model of `double`); a `Size`-vector is
`Fin n → ℚ` and a matrix is `Fin n → Fin n → ℚ`.  The SVD collaborator
(`TooN/SVD.h`) and `Identity` (`TooN/helpers.h`) are part of the repository
but not under src/, so they are modelled from the spec where noted.
-/

/-- Modelled from the spec: the `SVD<Size>` collaborator (`TooN/SVD.h`, not
under src/).  Its `compute(matrix)` stores a decomposition of the matrix and
`backsub(vector)` applies the pseudo-inverse of the decomposed matrix; the
embedding records the decomposed matrix itself and takes pseudo-inverse
application as an explicit function argument of `WLS.compute`. -/
structure SVDState (n : Nat) where
  decomposed : Fin n → Fin n → ℚ

/-- The state of a `WLS<Size>` instance (src/wls.h lines 134–138):
solution `my_mu`, information matrix `my_C_inv`, information vector
`my_vector`, and the decomposition object `my_svd`. -/
structure WLS (n : Nat) where
  my_mu : Fin n → ℚ
  my_C_inv : Fin n → Fin n → ℚ
  my_vector : Fin n → ℚ
  my_svd : SVDState n

variable {n : Nat}

/-- Modelled from the spec: `Identity(M, val)` from `TooN/helpers.h` (not
under src/) sets `M` to `val` times the identity matrix, per the spec's
"Resets informationMatrix = prior · Identity". -/
def identityMat (n : Nat) (val : ℚ) : Fin n → Fin n → ℚ :=
  fun i j => if i = j then val else 0

/-- `WLS::clear(prior)` (src/wls.h lines 48–53): `Identity(my_C_inv, prior)`
and zero `my_vector`.  `my_mu` and `my_svd` are not touched. -/
def WLS.clear (w : WLS n) (prior : ℚ) : WLS n :=
  { w with my_C_inv := identityMat n prior, my_vector := fun _ => 0 }

/-- The default constructor `WLS()` (src/wls.h line 41): runs `clear()`
(that is, `clear(0)`) on the otherwise uninitialised state `raw`. -/
def WLS.init (raw : WLS n) : WLS n := raw.clear 0

/-- The constructor `WLS(double prior)` (src/wls.h line 43): runs
`clear(prior)` on the otherwise uninitialised state `raw`. -/
def WLS.initPrior (raw : WLS n) (prior : ℚ) : WLS n := raw.clear prior

/-- `WLS::add_prior(double val)` (src/wls.h lines 58–62):
`my_C_inv(i,i) += val` for each `i`. -/
def WLS.add_prior (w : WLS n) (val : ℚ) : WLS n :=
  { w with my_C_inv := fun i j => w.my_C_inv i j + if i = j then val else 0 }

/-- The vector overload of `WLS::add_prior` (src/wls.h lines 67–72):
`my_C_inv(i,i) += v[i]` for each `i`. -/
def WLS.add_priorVec (w : WLS n) (v : Fin n → ℚ) : WLS n :=
  { w with my_C_inv := fun i j => w.my_C_inv i j + if i = j then v i else 0 }

/-- The matrix overload of `WLS::add_prior` (src/wls.h lines 77–80):
`my_C_inv += m`. -/
def WLS.add_priorMat (w : WLS n) (m : Fin n → Fin n → ℚ) : WLS n :=
  { w with my_C_inv := fun i j => w.my_C_inv i j + m i j }

/-- The single-measurement `WLS::add_df(m, J, weight)` (src/wls.h lines
86–95): with `Jw = J * weight`, `my_C_inv[i][j] += J[i]*Jw[j]` and
`my_vector[i] += Jw[i]*m`. -/
def WLS.add_df (w : WLS n) (m : ℚ) (J : Fin n → ℚ) (weight : ℚ) : WLS n :=
  let Jw : Fin n → ℚ := fun i => J i * weight
  { w with
    my_C_inv := fun i j => w.my_C_inv i j + J i * Jw j,
    my_vector := fun i => w.my_vector i + Jw i * m }

/-- The batched `WLS::add_df(m, J, invcov)` (src/wls.h lines 102–108):
`my_C_inv += J * invcov * J.T()` and `my_vector += J * invcov * m`,
written entrywise. -/
def WLS.add_dfBatch {N : Nat} (w : WLS n) (m : Fin N → ℚ)
    (J : Fin n → Fin N → ℚ) (invcov : Fin N → Fin N → ℚ) : WLS n :=
  { w with
    my_C_inv := fun i j => w.my_C_inv i j + ∑ k, ∑ l, J i k * invcov k l * J j l,
    my_vector := fun i => w.my_vector i + ∑ k, ∑ l, J i k * invcov k l * m l }

/-- `WLS::compute()` (src/wls.h lines 110–113): `my_svd.compute(my_C_inv);
my_mu = my_svd.backsub(my_vector)`.  Per the spec model of the SVD
collaborator, `backsub` applies the pseudo-inverse of the decomposed matrix;
that application is the argument `pinv`. -/
def WLS.compute (w : WLS n)
    (pinv : (Fin n → Fin n → ℚ) → (Fin n → ℚ) → (Fin n → ℚ)) : WLS n :=
  { w with my_svd := ⟨w.my_C_inv⟩, my_mu := pinv w.my_C_inv w.my_vector }

/-- `WLS::operator+=` (src/wls.h lines 117–121): `my_vector += meas.my_vector;
my_C_inv += meas.my_C_inv`.  The body's third statement
`my_true_C_inv += meas.my_true_C_inv` names a member that the class does not
declare (see wls.h lines 134–138), so it is ill-formed C++ and has no
executable semantics; the embedding implements the two well-formed
statements. -/
def WLS.combine (w meas : WLS n) : WLS n :=
  { w with
    my_vector := fun i => w.my_vector i + meas.my_vector i,
    my_C_inv := fun i j => w.my_C_inv i j + meas.my_C_inv i j }

/-- One accumulation call on a `WLS` instance: `clear`, one of the three
`add_prior` overloads, or one of the two `add_df` overloads. -/
inductive WLSOp (n : Nat) where
  | clearOp (prior : ℚ)
  | priorScalar (val : ℚ)
  | priorVec (v : Fin n → ℚ)
  | priorMat (m : Fin n → Fin n → ℚ)
  | df (m : ℚ) (J : Fin n → ℚ) (weight : ℚ)
  | dfBatch (N : Nat) (m : Fin N → ℚ) (J : Fin n → Fin N → ℚ)
      (invcov : Fin N → Fin N → ℚ)

/-- Interpretation of a single accumulation call. -/
def WLSOp.apply : WLSOp n → WLS n → WLS n
  | .clearOp p, w => w.clear p
  | .priorScalar v, w => w.add_prior v
  | .priorVec v, w => w.add_priorVec v
  | .priorMat m, w => w.add_priorMat m
  | .df m J wt, w => w.add_df m J wt
  | .dfBatch _ m J ic, w => w.add_dfBatch m J ic

/-- A sequence of accumulation calls, applied left to right. -/
def applyOps (ops : List (WLSOp n)) (w : WLS n) : WLS n :=
  ops.foldl (fun w op => op.apply w) w

/-- The accessor `WLS::get_mu()` (src/wls.h lines 127–128). -/
def WLS.get_mu (w : WLS n) : Fin n → ℚ := w.my_mu

/-- A list of single scalar measurements `(m, J, weight)` accumulated in order
through `WLS::add_df`. -/
def addMeasList (l : List (ℚ × (Fin n → ℚ) × ℚ)) (w : WLS n) : WLS n :=
  l.foldl (fun w t => w.add_df t.1 t.2.1 t.2.2) w

/-- Symmetry of a square matrix. -/
def SymmMat (M : Fin n → Fin n → ℚ) : Prop := ∀ i j, M i j = M j i

/-- The symmetry side conditions the spec places on matrix-valued arguments:
the matrix `add_prior` overload takes a symmetric matrix and the batched
`add_df` takes a symmetric inverse covariance; the other calls have none. -/
def WLSOp.symmetricArgs : WLSOp n → Prop
  | .priorMat m => SymmMat m
  | .dfBatch _ _ _ invcov => ∀ k l, invcov k l = invcov l k
  | _ => True

/-- The cached function values of a golden-section loop state agree with the
functor: `fx1 = f(x1)` and `fx2 = f(x2)`. -/
def gssFx {α : Type} (f : α → α) (s : GSState α) : Prop :=
  s.fx1 = f s.x1 ∧ s.fx2 = f s.x2

/-- The bracket ordering invariant of the golden-section loop state:
`a < x1 < x2 < c`. -/
def gssOrd {α : Type} [LinearOrderedField α] (s : GSState α) : Prop :=
  s.a < s.x1 ∧ s.x1 < s.x2 ∧ s.x2 < s.c

section GoldenSectionLemmas

variable {α : Type} [LinearOrderedField α] {g tol : α} {f : α → α} {maxit : Int}

theorem gssStep_itnum (g : α) (f : α → α) (s : GSState α) :
    (gssStep g f s).itnum = s.itnum := by
  unfold gssStep; split <;> rfl

theorem gssStep_fx {s : GSState α} (h : gssFx f s) : gssFx f (gssStep g f s) := by
  rcases h with ⟨h1, h2⟩
  unfold gssFx gssStep
  split
  · exact ⟨h2, rfl⟩
  · exact ⟨rfl, h1⟩

theorem gssStep_ord {s : GSState α} (hg0 : 0 < g) (hg1 : g < 1) (h : gssOrd s) :
    gssOrd (gssStep g f s) := by
  rcases h with ⟨h1, h2, h3⟩
  unfold gssOrd gssStep
  split
  · refine ⟨h2, ?_, ?_⟩
    · have := mul_pos hg0 (sub_pos.2 h3); simpa using by linarith
    · have := mul_lt_mul_of_pos_right hg1 (sub_pos.2 h3); simp only; nlinarith
  · refine ⟨?_, ?_, h2⟩
    · have := mul_lt_mul_of_pos_right hg1 (sub_pos.2 h1); simp only; nlinarith
    · have := mul_pos hg0 (sub_pos.2 h1); simpa using by linarith

theorem gssStep_bounds {s : GSState α} (h : gssOrd s) :
    s.a ≤ (gssStep g f s).a ∧ (gssStep g f s).c ≤ s.c := by
  rcases h with ⟨h1, h2, h3⟩
  unfold gssStep
  split
  · exact ⟨le_of_lt h1, le_refl _⟩
  · exact ⟨le_refl _, le_of_lt h3⟩

theorem gssLoop_fx :
    ∀ (fuel : Nat) (s s' : GSState α), gssFx f s →
      gssLoop g f tol maxit fuel s = some s' → gssFx f s'
  | 0, s, s', h, heq => by
    unfold gssLoop at heq
    split at heq
    · exact absurd heq (by simp)
    · cases heq; exact h
  | fuel + 1, s, s', h, heq => by
    unfold gssLoop at heq
    split at heq
    · exact gssLoop_fx fuel _ s' (gssStep_fx h) heq
    · cases heq; exact h

theorem gssLoop_inv (hg0 : 0 < g) (hg1 : g < 1) :
    ∀ (fuel : Nat) (s s' : GSState α), gssOrd s →
      gssLoop g f tol maxit fuel s = some s' →
      gssOrd s' ∧ s.a ≤ s'.a ∧ s'.c ≤ s.c
  | 0, s, s', h, heq => by
    unfold gssLoop at heq
    split at heq
    · exact absurd heq (by simp)
    · cases heq; exact ⟨h, le_refl _, le_refl _⟩
  | fuel + 1, s, s', h, heq => by
    unfold gssLoop at heq
    split at heq
    · have hb := gssStep_bounds (f := f) (g := g) h
      have ih := gssLoop_inv hg0 hg1 fuel _ s' (gssStep_ord hg0 hg1 h) heq
      exact ⟨ih.1, le_trans hb.1 ih.2.1, le_trans ih.2.2 hb.2⟩
    · cases heq; exact ⟨h, le_refl _, le_refl _⟩

theorem gssInit_fx (g a b c : α) (f : α → α) : gssFx f (gssInit g a b c (f b) f) := by
  unfold gssFx gssInit
  split <;> exact ⟨rfl, rfl⟩

theorem gssInit_a (g a b c fb : α) (f : α → α) : (gssInit g a b c fb f).a = a := by
  unfold gssInit; split <;> rfl

theorem gssInit_c (g a b c fb : α) (f : α → α) : (gssInit g a b c fb f).c = c := by
  unfold gssInit; split <;> rfl

theorem gssInit_ord (hg0 : 0 < g) (hg1 : g < 1) {a b c : α} (fb : α)
    (hab : a < b) (hbc : b < c) : gssOrd (gssInit g a b c fb f) := by
  unfold gssOrd gssInit
  split
  · refine ⟨?_, ?_, hbc⟩
    · have := mul_lt_mul_of_pos_right hg1 (sub_pos.2 hab); simp only; nlinarith
    · have := mul_pos hg0 (sub_pos.2 hab); simpa using by linarith
  · refine ⟨hab, ?_, ?_⟩
    · have := mul_pos hg0 (sub_pos.2 hbc); simpa using by linarith
    · have := mul_lt_mul_of_pos_right hg1 (sub_pos.2 hbc); simp only; nlinarith

/-- With `tol = 0`, an ordered state, an iteration counter stuck at `1`, and
`1 < maxiterations`, the loop guard always holds and the loop never exits. -/
theorem gssLoop_runs_forever (hg0 : 0 < g) (hg1 : g < 1) (hmax : 1 < maxit) :
    ∀ (fuel : Nat) (s : GSState α), gssOrd s → s.itnum = 1 →
      gssLoop g f 0 maxit fuel s = none
  | 0, s, hord, hit => by
    have hac : s.a < s.c := lt_trans hord.1 (lt_trans hord.2.1 hord.2.2)
    unfold gssLoop
    have hguard : gssGuard (0 : α) maxit s = true := by
      unfold gssGuard
      simp only [zero_mul, Bool.and_eq_true, decide_eq_true_eq]
      exact ⟨abs_pos.2 (sub_ne_zero.2 (ne_of_gt hac)), by rw [hit]; exact hmax⟩
    rw [hguard]; rfl
  | fuel + 1, s, hord, hit => by
    have hac : s.a < s.c := lt_trans hord.1 (lt_trans hord.2.1 hord.2.2)
    unfold gssLoop
    have hguard : gssGuard (0 : α) maxit s = true := by
      unfold gssGuard
      simp only [zero_mul, Bool.and_eq_true, decide_eq_true_eq]
      exact ⟨abs_pos.2 (sub_ne_zero.2 (ne_of_gt hac)), by rw [hit]; exact hmax⟩
    rw [hguard]
    exact gssLoop_runs_forever hg0 hg1 hmax fuel _ (gssStep_ord hg0 hg1 hord)
      (by rw [gssStep_itnum]; exact hit)

end GoldenSectionLemmas

section WLSLemmas

theorem WLS.ext' {w v : WLS n} (h1 : w.my_mu = v.my_mu) (h2 : w.my_C_inv = v.my_C_inv)
    (h3 : w.my_vector = v.my_vector) (h4 : w.my_svd = v.my_svd) : w = v := by
  cases w; cases v
  cases h1; cases h2; cases h3; cases h4
  rfl

theorem WLSOp.apply_my_mu (op : WLSOp n) (w : WLS n) : (op.apply w).my_mu = w.my_mu := by
  cases op <;> rfl

theorem WLSOp.apply_my_svd (op : WLSOp n) (w : WLS n) : (op.apply w).my_svd = w.my_svd := by
  cases op <;> rfl

theorem applyOps_my_mu (ops : List (WLSOp n)) (w : WLS n) :
    (applyOps ops w).my_mu = w.my_mu := by
  induction ops generalizing w with
  | nil => rfl
  | cons op ops ih => exact (ih (op.apply w)).trans (WLSOp.apply_my_mu op w)

theorem WLSOp.apply_symm (op : WLSOp n) (w : WLS n) (hw : SymmMat w.my_C_inv)
    (hop : op.symmetricArgs) : SymmMat (op.apply w).my_C_inv := by
  cases op with
  | clearOp p =>
    intro i j
    simp only [WLSOp.apply, WLS.clear, identityMat]
    rcases eq_or_ne i j with h | h
    · rw [h]
    · rw [if_neg h, if_neg (Ne.symm h)]
  | priorScalar v =>
    intro i j
    simp only [WLSOp.apply, WLS.add_prior]
    rcases eq_or_ne i j with h | h
    · rw [h]
    · rw [if_neg h, if_neg (Ne.symm h), hw i j]
  | priorVec v =>
    intro i j
    simp only [WLSOp.apply, WLS.add_priorVec]
    rcases eq_or_ne i j with h | h
    · rw [h]
    · rw [if_neg h, if_neg (Ne.symm h), hw i j]
  | priorMat m =>
    intro i j
    simp only [WLSOp.apply, WLS.add_priorMat]
    rw [hw i j, hop i j]
  | df m J wt =>
    intro i j
    simp only [WLSOp.apply, WLS.add_df]
    rw [hw i j]; ring
  | dfBatch N m J invcov =>
    intro i j
    simp only [WLSOp.apply, WLS.add_dfBatch]
    rw [hw i j, Finset.sum_comm]
    congr 1
    refine Finset.sum_congr rfl fun k _ => Finset.sum_congr rfl fun l _ => ?_
    rw [hop l k]; ring

theorem applyOps_symm (ops : List (WLSOp n)) (w : WLS n) (hw : SymmMat w.my_C_inv)
    (hops : ∀ op ∈ ops, op.symmetricArgs) : SymmMat (applyOps ops w).my_C_inv := by
  induction ops generalizing w with
  | nil => exact hw
  | cons op ops ih =>
    exact ih (op.apply w)
      (op.apply_symm w hw (hops op (List.mem_cons_self op ops)))
      (fun o ho => hops o (List.mem_cons_of_mem op ho))

theorem combine_add_df (w v : WLS n) (m : ℚ) (J : Fin n → ℚ) (wt : ℚ) :
    w.combine (v.add_df m J wt) = (w.combine v).add_df m J wt := by
  refine WLS.ext' rfl ?_ ?_ rfl
  · funext i j
    simp only [WLS.combine, WLS.add_df]
    ring
  · funext i
    simp only [WLS.combine, WLS.add_df]
    ring

theorem combine_addMeasList (w v : WLS n) (l : List (ℚ × (Fin n → ℚ) × ℚ)) :
    w.combine (addMeasList l v) = addMeasList l (w.combine v) := by
  induction l generalizing v with
  | nil => rfl
  | cons t l ih =>
    show w.combine (addMeasList l (v.add_df t.1 t.2.1 t.2.2))
       = addMeasList l ((w.combine v).add_df t.1 t.2.1 t.2.2)
    rw [ih, combine_add_df]

theorem combine_clear_zero (w raw : WLS n) : w.combine (raw.clear 0) = w := by
  refine WLS.ext' rfl ?_ ?_ rfl
  · funext i j
    simp [WLS.combine, WLS.clear, identityMat]
  · funext i
    simp [WLS.combine, WLS.clear]

theorem addMeasList_append (l1 l2 : List (ℚ × (Fin n → ℚ) × ℚ)) (w : WLS n) :
    addMeasList (l1 ++ l2) w = addMeasList l2 (addMeasList l1 w) :=
  List.foldl_append _ _ _ _

end WLSLemmas

/-- Claim C5: for every bracket `(a, b, c)`, functor `f`, maximum iteration
count and tolerance (and any loop fuel), the `golden_section_search` overload
without a precomputed `f(b)` returns exactly the same result as the overload
whose `fb` argument equals `f(b)`. -/
theorem claim_C5_overloads_agree {α : Type} [LinearOrderedField α] (g a b c : α)
    (f : α → α) (maxiterations : Int) (tol : α) (fuel : Nat) :
    golden_section_search3 g a b c f maxiterations tol fuel
      = golden_section_search g a b c (f b) f maxiterations tol fuel := rfl

/-- Claim C7: a single `add_df(m, J, weight)` call adds the weighted outer
product `J·weight·Jᵀ` to the information matrix and `J·weight·m` to the
information vector, and changes nothing else (`my_mu` and `my_svd` are
untouched). -/
theorem claim_C7_add_df_effect (w : WLS n) (m : ℚ) (J : Fin n → ℚ) (weight : ℚ) :
    (∀ i j, (w.add_df m J weight).my_C_inv i j = w.my_C_inv i j + J i * weight * J j)
    ∧ (∀ i, (w.add_df m J weight).my_vector i = w.my_vector i + J i * weight * m)
    ∧ (w.add_df m J weight).my_mu = w.my_mu
    ∧ (w.add_df m J weight).my_svd = w.my_svd := by
  refine ⟨fun i j => ?_, fun i => ?_, rfl, rfl⟩
  · show w.my_C_inv i j + J i * (J j * weight) = w.my_C_inv i j + J i * weight * J j
    ring
  · show w.my_vector i + J i * weight * m = w.my_vector i + J i * weight * m
    rfl

/-- Claim C8: immediately after `clear(prior)` — here applied after an
arbitrary sequence of prior accumulation calls on an arbitrary instance —
the information matrix equals `prior` times the identity and the information
vector is zero. -/
theorem claim_C8_clear_resets (w : WLS n) (ops : List (WLSOp n)) (prior : ℚ) :
    (∀ i j, ((applyOps ops w).clear prior).my_C_inv i j = if i = j then prior else 0)
    ∧ (∀ i, ((applyOps ops w).clear prior).my_vector i = 0) :=
  ⟨fun _ _ => rfl, fun _ => rfl⟩

/-- Claim C3: after `compute()` the stored solution equals the pseudo-inverse
of the current information matrix applied to the current information vector
(the pseudo-inverse application `pinv` models the SVD collaborator's
`compute`/`backsub`, per the spec); and re-invoking `compute()` after further
accumulation recomputes the solution from the updated information matrix and
vector, with no stale cached result. -/
theorem claim_C3_compute_solution (w : WLS n)
    (pinv : (Fin n → Fin n → ℚ) → (Fin n → ℚ) → (Fin n → ℚ))
    (ops : List (WLSOp n)) :
    (w.compute pinv).my_mu = pinv w.my_C_inv w.my_vector
    ∧ ((applyOps ops (w.compute pinv)).compute pinv).my_mu
        = pinv (applyOps ops (w.compute pinv)).my_C_inv
            (applyOps ops (w.compute pinv)).my_vector :=
  ⟨rfl, rfl⟩

/-- Claim C4: starting from a symmetric information matrix, every sequence of
accumulation calls (`clear` with any prior, the scalar, vector and
symmetric-matrix `add_prior` overloads, and single or batched `add_df` with a
symmetric inverse covariance) leaves the information matrix symmetric. -/
theorem claim_C4_symmetry_invariant (w : WLS n) (ops : List (WLSOp n))
    (hw : SymmMat w.my_C_inv) (hops : ∀ op ∈ ops, op.symmetricArgs) :
    SymmMat (applyOps ops w).my_C_inv :=
  applyOps_symm ops w hw hops

/-- Witness for claim C4: a concrete 2-dimensional instance and a concrete
sequence of one call of each kind keeps the information matrix symmetric. -/
theorem claim_C4_witness :
    SymmMat (applyOps
      [WLSOp.clearOp 2, WLSOp.priorScalar 3,
       WLSOp.priorVec (fun i => (i : ℚ)),
       WLSOp.priorMat (fun i j => (i : ℚ) + (j : ℚ)),
       WLSOp.df 5 (fun i => (i : ℚ) + 1) 2,
       WLSOp.dfBatch 2 (fun k => (k : ℚ)) (fun i k => (i : ℚ) * (k : ℚ))
         (fun k l => (k : ℚ) * (l : ℚ))]
      (⟨fun _ => 0, fun _ _ => 0, fun _ => 0, ⟨fun _ _ => 0⟩⟩ : WLS 2)).my_C_inv :=
  claim_C4_symmetry_invariant _ _ (fun _ _ => rfl) (by
    intro op hop
    simp only [List.mem_cons, List.not_mem_nil, or_false] at hop
    rcases hop with rfl | rfl | rfl | rfl | rfl | rfl
    · trivial
    · trivial
    · trivial
    · intro i j; simp [SymmMat]; ring
    · trivial
    · intro k l; simp only; ring)

/-- Claim C10: no accumulation call (`clear`, any `add_prior` overload, either
`add_df` overload) nor either constructor's implicit `clear` modifies the
stored solution `my_mu`; in particular `get_mu` still reads the old solution
after the calls. -/
theorem claim_C10_accumulation_preserves_mu (w raw : WLS n) (ops : List (WLSOp n))
    (p : ℚ) :
    (applyOps ops w).get_mu = w.get_mu
    ∧ (WLS.init raw).get_mu = raw.get_mu
    ∧ (WLS.initPrior raw p).get_mu = raw.get_mu :=
  ⟨applyOps_my_mu ops w, rfl, rfl⟩

/-- Claim C2 (behaviour of the two well-formed statements of `operator+=`;
the third statement of the C++ body names the nonexistent member
`my_true_C_inv` and cannot compile — see `WLS.combine`): combining adds the
other instance's information matrix and vector to this instance's, and
splitting measurements across two instances (the second starting from
`clear(0)`) then combining yields the same solution after `compute()` as
accumulating all measurements in one instance. -/
theorem claim_C2_combine (w v raw : WLS n) (l1 l2 : List (ℚ × (Fin n → ℚ) × ℚ))
    (pinv : (Fin n → Fin n → ℚ) → (Fin n → ℚ) → (Fin n → ℚ)) :
    (∀ i j, (w.combine v).my_C_inv i j = w.my_C_inv i j + v.my_C_inv i j)
    ∧ (∀ i, (w.combine v).my_vector i = w.my_vector i + v.my_vector i)
    ∧ (((addMeasList l1 w).combine (addMeasList l2 (raw.clear 0))).compute pinv).my_mu
        = ((addMeasList (l1 ++ l2) w).compute pinv).my_mu := by
  refine ⟨fun _ _ => rfl, fun _ => rfl, ?_⟩
  rw [combine_addMeasList, combine_clear_zero, addMeasList_append]

/-- Claim C6: when `golden_section_search` terminates (the loop exits in state
`s`), it returns whichever of `(x1, f(x1))` and `(x2, f(x2))` has the smaller
function value, and on an exact tie it returns `(x2, f(x2))`. -/
theorem claim_C6_return_selection {α : Type} [LinearOrderedField α] (g a b c tol : α)
    (f : α → α) (maxit : Int) (fuel : Nat) (s : GSState α)
    (h : gssLoop g f tol maxit fuel (gssInit g a b c (f b) f) = some s) :
    golden_section_search g a b c (f b) f maxit tol fuel
      = some (if f s.x1 < f s.x2 then (s.x1, f s.x1) else (s.x2, f s.x2))
    ∧ (f s.x1 = f s.x2 →
        golden_section_search g a b c (f b) f maxit tol fuel
          = some (s.x2, f s.x2)) := by
  have hfx := gssLoop_fx fuel _ s (gssInit_fx g a b c f) h
  have hmain : golden_section_search g a b c (f b) f maxit tol fuel
      = some (if f s.x1 < f s.x2 then (s.x1, f s.x1) else (s.x2, f s.x2)) := by
    unfold golden_section_search
    rw [h, Option.map_some']
    unfold gssReturn
    rw [hfx.1, hfx.2]
  exact ⟨hmain, fun htie => by
    rw [hmain, if_neg (not_lt.2 (le_of_eq htie.symm))]⟩

/-- Witness for claim C6: for `f(x) = x²`, bracket `(0, 1, 3)` and a large
tolerance the loop exits immediately in the state `(0, 1, 3/2, 3)` and the
search returns the smaller of the two candidates, `(1, 1)`. -/
theorem claim_C6_witness :
    (golden_section_search ((1:ℚ)/4) 0 1 3 ((fun x : ℚ => x * x) 1)
        (fun x : ℚ => x * x) 7 100 0
      = some (if (fun x : ℚ => x * x) (1:ℚ) < (fun x : ℚ => x * x) (3/2 : ℚ)
          then ((1:ℚ), (fun x : ℚ => x * x) (1:ℚ))
          else ((3/2 : ℚ), (fun x : ℚ => x * x) (3/2 : ℚ))))
    ∧ ((fun x : ℚ => x * x) (1:ℚ) = (fun x : ℚ => x * x) (3/2 : ℚ) →
        golden_section_search ((1:ℚ)/4) 0 1 3 ((fun x : ℚ => x * x) 1)
          (fun x : ℚ => x * x) 7 100 0
          = some ((3/2 : ℚ), (fun x : ℚ => x * x) (3/2 : ℚ))) :=
  claim_C6_return_selection ((1:ℚ)/4) 0 1 3 100 (fun x : ℚ => x * x) 7 0
    ⟨0, 1, 3/2, 3, 1, 9/4, 1⟩ (by with_unfolding_all decide)

/-- Claim C9: whenever `golden_section_search` returns a pair `r`, the second
component of `r` is the functor applied to the first, and under the
precondition `a < b < c` (with the golden constant in `(0,1)`) the returned
position lies strictly between the original `a` and the original `c`. -/
theorem claim_C9_result_form {α : Type} [LinearOrderedField α] (g a b c tol : α)
    (f : α → α) (maxit : Int) (fuel : Nat) (r : α × α)
    (hg0 : 0 < g) (hg1 : g < 1) (hab : a < b) (hbc : b < c)
    (h : golden_section_search g a b c (f b) f maxit tol fuel = some r) :
    r.2 = f r.1 ∧ a < r.1 ∧ r.1 < c := by
  unfold golden_section_search at h
  rcases Option.map_eq_some'.1 h with ⟨s, hs, hr⟩
  have hfx := gssLoop_fx fuel _ s (gssInit_fx g a b c f) hs
  have hinv := gssLoop_inv hg0 hg1 fuel _ s
    (gssInit_ord hg0 hg1 (f b) hab hbc) hs
  rcases hinv with ⟨⟨o1, o2, o3⟩, hba, hbc2⟩
  rw [gssInit_a] at hba
  rw [gssInit_c] at hbc2
  subst hr
  unfold gssReturn
  split
  · exact ⟨hfx.1, lt_of_le_of_lt hba o1, lt_of_lt_of_le (lt_trans o2 o3) hbc2⟩
  · exact ⟨hfx.2, lt_of_le_of_lt hba (lt_trans o1 o2), lt_of_lt_of_le o3 hbc2⟩

/-- Witness for claim C9: for the identity functor on the bracket `(0, 1, 2)`
with a large tolerance the search returns `(1, 1)`, whose second component is
`f(1)` and whose position lies strictly inside `(0, 2)`. -/
theorem claim_C9_witness :
    ((1:ℚ), (1:ℚ)).2 = (fun x : ℚ => x) ((1:ℚ), (1:ℚ)).1
    ∧ (0:ℚ) < ((1:ℚ), (1:ℚ)).1 ∧ ((1:ℚ), (1:ℚ)).1 < 2 :=
  claim_C9_result_form ((1:ℚ)/3) 0 1 2 10 (fun x : ℚ => x) 5 0 ((1:ℚ), (1:ℚ))
    (by norm_num) (by norm_num) (by norm_num) (by norm_num)
    (by with_unfolding_all decide)

/-- Claim C1 (evidence of the code bug): the loop body never increments
`itnum`, which stays at its initial value `1`, so for any
`maxiterations ≥ 2` the guard's `itnum < maxiterations` test never becomes
false.  Concretely, for `f(x) = x²`, bracket `(-1, 0, 2)`, `tol = 0` and
`maxiterations = 5`, the search is still running after any number of
iterations (`none` for every fuel): the iteration cap is not respected. -/
theorem claim_C1_iteration_cap_not_enforced :
    ∀ fuel : Nat,
      golden_section_search ((2:ℚ)/5) (-1) 0 2 ((fun x : ℚ => x * x) 0)
        (fun x : ℚ => x * x) 5 0 fuel = none := by
  intro fuel
  unfold golden_section_search
  rw [gssLoop_runs_forever (by norm_num) (by norm_num) (by norm_num) fuel _
    (by refine ⟨?_, ?_, ?_⟩ <;> with_unfolding_all decide)
    (by with_unfolding_all decide)]
  rfl

end TooN
